import Mathlib

/-
Verification of the RNAsynth constraint-extraction core
(`rnasynth/constraint_extractor.py`) and the fit/sample/filter control
loop (`rnasynth/rna_synthesizer.py`).

Shallow embedding conventions:
* An annotated networkx graph becomes `AnnGraph`: a list of nodes (node
  id paired with its attribute record) plus a list of typed undirected
  edges.  Node attributes `label` / `importance` are `Option`-valued so
  that a malformed graph (missing attribute) is representable; a missing
  attribute access (Python `KeyError`) is modelled as
  `ExtractError.graphMalformed`.
* Python float scores/importances are modelled as exact rationals `ℚ`.
* Python dictionaries keyed by node id become association lists
  `List (Nat × Char)`; `dictSet` models `d[k] = v` (overwrite if the key
  exists, append otherwise) and `lookupd` models `d[k]` reads.
* A generator that can raise becomes an `Except ExtractError` value:
  raising on an item aborts the stream instead of skipping the item.
-/

set_option maxHeartbeats 1000000

namespace RNAsynth

/-- Failure modes of constraint extraction.  `graphMalformed` models the
Python `KeyError` raised on a missing node id / node attribute access;
`zeroNodeGraph` models the `ZeroDivisionError` raised by the GC-content
division on an empty graph.  These are the spec's `GraphMalformedError`
and `ZeroNodeGraphError`. -/
inductive ExtractError where
  | graphMalformed
  | zeroNodeGraph
deriving DecidableEq

/-- Kind of a networkx edge: sequential backbone edge or basepair edge
(the code distinguishes them by the substring `basepair` in the
edge-list line). -/
inductive EdgeType where
  | backbone
  | basepair
deriving DecidableEq

/-- Attribute record of one node: nucleotide `label` and annotated
`importance` score; `none` models a missing attribute. -/
structure NodeData where
  label : Option Char
  importance : Option ℚ
deriving DecidableEq

/-- An annotated secondary-structure graph: fasta id, the node list in
iteration order (node id with attributes), and typed undirected edges
`(u, v, type)`. -/
structure AnnGraph where
  id : String
  nodes : List (Nat × NodeData)
  edges : List (Nat × Nat × EdgeType)
deriving DecidableEq

/-- Node ids of a graph in iteration order (`graph.nodes()`). -/
def nodeIds (g : AnnGraph) : List Nat :=
  g.nodes.map Prod.fst

/-- Dictionary read `d[k]`: value of the first entry with key `k`. -/
def lookupd (d : List (Nat × Char)) (k : Nat) : Option Char :=
  (d.find? (fun p => p.1 == k)).map Prod.snd

/-- Dictionary write `d[k] = v`: overwrite the entries holding key `k`,
or append the key if it is absent (Python dict assignment). -/
def dictSet (d : List (Nat × Char)) (k : Nat) (v : Char) : List (Nat × Char) :=
  if d.any (fun p => p.1 == k) then
    d.map (fun p => if p.1 == k then (k, v) else p)
  else
    d ++ [(k, v)]

/-- Helper of `_get_importance_list`: the survivors of
`_importance_based_graph_cut`, i.e. the node ids whose importance score
is not strictly below the threshold, in iteration order (reading a
missing importance attribute raises). -/
def survivorsAux : List (Nat × NodeData) → ℚ → Except ExtractError (List Nat)
  | [], _ => Except.ok []
  | p :: rest, t =>
    match p.2.importance with
    | none => Except.error ExtractError.graphMalformed
    | some imp =>
      (survivorsAux rest t).map (fun s => if imp < t then s else p.1 :: s)

/-- Undirected adjacency test over an edge list; the edge type is
ignored, as networkx connectivity uses every edge. -/
def adjacentB (E : List (Nat × Nat × EdgeType)) (a b : Nat) : Bool :=
  E.any (fun e => (e.1 == a && e.2.1 == b) || (e.1 == b && e.2.1 == a))

/-- One breadth step of component exploration inside the node list `S`:
keep the nodes of `S` already collected or adjacent to a collected
node. -/
def expandStep (S : List Nat) (E : List (Nat × Nat × EdgeType)) (cur : List Nat) : List Nat :=
  S.filter (fun v => cur.contains v || cur.any (fun u => adjacentB E u v))

/-- Connected component of `s` in the subgraph induced by the node list
`S`: iterate `expandStep` `S.length` times (enough steps to reach the
whole component), giving the component as a sublist of `S`. -/
def compOf (S : List Nat) (E : List (Nat × Nat × EdgeType)) (s : Nat) : List Nat :=
  (expandStep S E)^[S.length] [s]

/-- Model of `networkx.connected_components` on the subgraph induced by
the node list `S`: one component list per node of `S`, duplicate lists
removed. -/
def connectedComponents (S : List Nat) (E : List (Nat × Nat × EdgeType)) : List (List Nat) :=
  (S.map (compOf S E)).dedup

/-- Union of the components of size at least `adjacency`, in component
order (the `nodes_list = nodes_list + component` loop). -/
def keptUnion (adjacency : Nat) (comps : List (List Nat)) : List Nat :=
  comps.foldl (fun acc c => if adjacency ≤ c.length then acc ++ c else acc) []

/-- Embedding of `ConstraintExtractor._get_importance_list`: copy the
graph, cut every node with importance below `threshold`, collect
connected components of the remainder of size at least `adjacency`;
with `invert = false` (source `importance=1`) return their union, with
`invert = true` (source `importance=-1`) return the complement against
the original node list. -/
def get_importance_list (g : AnnGraph) (threshold : ℚ) (adjacency : Nat)
    (invert : Bool) : Except ExtractError (List Nat) :=
  (survivorsAux g.nodes threshold).map (fun S =>
    let nodes_list := keptUnion adjacency (connectedComponents S g.edges)
    if invert then (nodeIds g).filter (fun n => decide (n ∉ nodes_list))
    else nodes_list)

/-- Concrete 5-node path graph with importance scores 2, 2, -1, 2, 2
(the spec's testable input for the importance-set algorithm). -/
def path5 : AnnGraph :=
  ⟨"path5",
   [(0, ⟨some 'A', some 2⟩), (1, ⟨some 'C', some 2⟩), (2, ⟨some 'G', some (-1)⟩),
    (3, ⟨some 'U', some 2⟩), (4, ⟨some 'A', some 2⟩)],
   [(0, 1, EdgeType.backbone), (1, 2, EdgeType.backbone),
    (2, 3, EdgeType.backbone), (3, 4, EdgeType.backbone)]⟩

/-- Helper of `compute_gc_content`: count nodes labeled G or C while
reading every node's `label` attribute (a missing label raises). -/
def gcCountAux : List (Nat × NodeData) → Except ExtractError Nat
  | [] => Except.ok 0
  | p :: rest =>
    match p.2.label with
    | none => Except.error ExtractError.graphMalformed
    | some l =>
      (gcCountAux rest).map (fun c => (if l = 'G' ∨ l = 'C' then 1 else 0) + c)

/-- Embedding of `ConstraintExtractor._compute_gc_content`: count the
G/C labels over all nodes, then divide by the node count (the division
on an empty graph raises; Python float division is modelled as exact
rational division). -/
def compute_gc_content (g : AnnGraph) : Except ExtractError ℚ :=
  (gcCountAux g.nodes).bind (fun c =>
    if g.nodes.length = 0 then Except.error ExtractError.zeroNodeGraph
    else Except.ok ((c : ℚ) / (g.nodes.length : ℚ)))

/-- Embedding of `RNASynth._filter_graphs`: the source tees the graph
stream, scores one copy with `vectorizer.predict`, zips scores with the
other copy and yields a graph only when its score is strictly greater
than the threshold; with `score` the per-graph scoring oracle this is a
filter by `threshold < score`. -/
def filter_graphs {α : Type} (score : α → ℚ) (threshold : ℚ) (graphs : List α) : List α :=
  graphs.filter (fun gr => decide (threshold < score gr))

/-- Embedding of `RNASynth._filter_seqs`: the source tees the sequence
stream, folds one copy in single-structure (mfe) mode, scores the folded
graphs, and yields a sequence only when its score is strictly greater
than the threshold. -/
def filter_seqs {α β : Type} (fold_mfe : α → β) (score : β → ℚ) (threshold : ℚ)
    (seqs : List α) : List α :=
  seqs.filter (fun s => decide (threshold < score (fold_mfe s)))

/-- State of an `RNASynth` instance: the five collaborator fields and
the scalar configuration fields set in `RNASynth.__init__`.  The
collaborator types are opaque parameters. -/
structure RNASynthState (E V D P C : Type) where
  estimator : E
  vectorizer : V
  designer : D
  pre_processor : P
  constraint_extractor : C
  n_synthesized_seqs_per_seed_seq : Nat
  instance_score_threshold_in : ℚ
  instance_score_threshold_out : ℚ
  shuffle_order : Nat
  negative_shuffle_ratio : Nat
  n_jobs : Int
  cv : Nat
  n_iter_search : Nat

/-- Embedding of `RNASynth.fit`: the external cross-validated fit
routine produces `trained`; the method stores it in `self.estimator`
and returns `self`.  In the functional embedding the returned value is
the updated state. -/
def RNASynth.fit {E V D P C : Type} (s : RNASynthState E V D P C) (trained : E) :
    RNASynthState E V D P C :=
  { s with estimator := trained }

/-- Embedding of `RNASynth.fit_sample`: tee the seed stream, fit on one
branch, and run `sample` on the object returned by `fit` with the other
branch. -/
def RNASynth.fit_sample {E V D P C S O : Type} (s : RNASynthState E V D P C)
    (trained : E) (sample : RNASynthState E V D P C → S → O) (seqs_ : S) : O :=
  sample (RNASynth.fit s trained) seqs_

/-- Embedding of `ConstraintExtractor._get_basepair_list`: the `(u, v)`
pairs of the basepair edges, in edge-list order. -/
def get_basepair_list (g : AnnGraph) : List (Nat × Nat) :=
  (g.edges.filter (fun e => e.2.2 == EdgeType.basepair)).map (fun e => (e.1, e.2.1))

/-- Append a node id unless already collected (the
`if not ... in paired_list` guards of `_find_paired_nodes`). -/
def addIfAbsent (l : List Nat) (n : Nat) : List Nat :=
  if l.contains n then l else l ++ [n]

/-- Embedding of `ConstraintExtractor._find_paired_nodes`: every
endpoint of a basepair edge, in first-occurrence order. -/
def find_paired_nodes (g : AnnGraph) : List Nat :=
  g.edges.foldl
    (fun acc e =>
      if e.2.2 == EdgeType.basepair then addIfAbsent (addIfAbsent acc e.1) e.2.1
      else acc)
    []

/-- Embedding of `ConstraintExtractor._find_unpaired_regions`: remove
every paired node from a copy (`_pair_based_graph_cut`), take connected
components of the remainder, and return the union of the components of
size at least `adjacency`. -/
def find_unpaired_regions (g : AnnGraph) (adjacency : Nat) : List Nat :=
  keptUnion adjacency
    (connectedComponents
      ((nodeIds g).filter (fun n => decide (n ∉ find_paired_nodes g))) g.edges)

/-- Embedding of `ConstraintExtractor._build_nodes_dict`: dictionary
node id → nucleotide label (a missing label raises). -/
def build_nodes_dict : List (Nat × NodeData) → Except ExtractError (List (Nat × Char))
  | [] => Except.ok []
  | p :: rest =>
    match p.2.label with
    | none => Except.error ExtractError.graphMalformed
    | some l => (build_nodes_dict rest).map (fun d => (p.1, l) :: d)

/-- Embedding of `ConstraintExtractor._build_generic_nodes_dict`:
dictionary node id → pad character (the source's default pad is `'A'`
and the only call site uses that default). -/
def build_generic_nodes_dict (g : AnnGraph) (padding : Char) : List (Nat × Char) :=
  g.nodes.map (fun p => (p.1, padding))

/-- Index walk of `ConstraintExtractor._dict_to_string`: concatenate
`d[0], d[1], ..., d[len(d)-1]`; a missing index raises `KeyError`. -/
def dictToStringGo (d : List (Nat × Char)) : List Nat → Except ExtractError (List Char)
  | [] => Except.ok []
  | i :: rest =>
    match lookupd d i with
    | none => Except.error ExtractError.graphMalformed
    | some c => (dictToStringGo d rest).map (fun s => c :: s)

/-- Embedding of `ConstraintExtractor._dict_to_string`. -/
def dict_to_string (d : List (Nat × Char)) : Except ExtractError (List Char) :=
  dictToStringGo d (List.range d.length)

/-- Basepair loop of `_extract_structure_constraints`: for each
basepair `(i, j)` with both endpoints in the importance list, set
`d[i] = '('` and `d[j] = ')'`. -/
def applyBasepairs (imp : List Nat) : List (Nat × Nat) → List (Nat × Char) → List (Nat × Char)
  | [], d => d
  | (i, j) :: rest, d =>
    applyBasepairs imp rest
      (if i ∈ imp ∧ j ∈ imp then dictSet (dictSet d i '(') j ')' else d)

/-- Mark-overwrite loop shared by both constraint extractors: set
`d[n] = c` for every `n` in `l`, in order. -/
def applyMarks (c : Char) (l : List Nat) (d : List (Nat × Char)) : List (Nat × Char) :=
  l.foldl (fun acc n => dictSet acc n c) d

/-- Embedding of `ConstraintExtractor._extract_sequence_constraints`
(pad `'N'`): start from the label dictionary and overwrite the
positions of the inverted importance list with the pad. -/
def extract_sequence_constraints (g : AnnGraph) (threshold : ℚ) (adjacency : Nat) :
    Except ExtractError (List Char) :=
  (build_nodes_dict g.nodes).bind (fun d =>
    (get_importance_list g threshold adjacency true).bind (fun inv =>
      dict_to_string (applyMarks 'N' inv d)))

/-- Embedding of `ConstraintExtractor._extract_structure_constraints`:
basepair list, unpaired regions, pad dictionary, importance list, then
the bracket pass followed by the dot pass. -/
def extract_structure_constraints (g : AnnGraph) (threshold : ℚ)
    (adjacency adjacencyUnpaired : Nat) : Except ExtractError (List Char) :=
  (get_importance_list g threshold adjacency false).bind (fun imp =>
    dict_to_string
      (applyMarks '.' (find_unpaired_regions g adjacencyUnpaired)
        (applyBasepairs imp (get_basepair_list g) (build_generic_nodes_dict g 'A'))))

/-- Configuration of a `ConstraintExtractor` instance. -/
structure ExtractorParams where
  importance_threshold_sequence_constraint : ℚ
  min_size_connected_component_sequence_constraint : Nat
  importance_threshold_structure_constraint : ℚ
  min_size_connected_component_structure_constraint : Nat
  min_size_connected_component_unpaired_structure_constraint : Nat

/-- Default `ConstraintExtractor` parameters (thresholds 0, all minimum
component sizes 1, as in `ConstraintExtractor.__init__`). -/
def defaultParams : ExtractorParams := ⟨0, 1, 0, 1, 1⟩

/-- One record yielded by `extract_constraints`: structure constraint,
sequence constraint, GC content and fasta id, in the source's tuple
order. -/
structure ConstraintRecord where
  struct : List Char
  cseq : List Char
  gc_content : ℚ
  fasta_id : String
deriving DecidableEq

/-- Embedding of `ConstraintExtractor.extract_constraints` on one
graph, in source evaluation order: fasta id, GC content, sequence
constraint, structure constraint. -/
def extract_constraints_one (P : ExtractorParams) (g : AnnGraph) :
    Except ExtractError ConstraintRecord :=
  (compute_gc_content g).bind (fun gc =>
    (extract_sequence_constraints g
        P.importance_threshold_sequence_constraint
        P.min_size_connected_component_sequence_constraint).bind (fun cseq =>
      (extract_structure_constraints g
          P.importance_threshold_structure_constraint
          P.min_size_connected_component_structure_constraint
          P.min_size_connected_component_unpaired_structure_constraint).map (fun st =>
        ⟨st, cseq, gc, g.id⟩)))

/-- Embedding of the `extract_constraints` generator over a finite
graph stream: an exception on any item aborts the whole stream, so a
failing item is never silently skipped. -/
def extract_constraints (P : ExtractorParams) :
    List AnnGraph → Except ExtractError (List ConstraintRecord)
  | [] => Except.ok []
  | g :: rest =>
    (extract_constraints_one P g).bind (fun r =>
      (extract_constraints P rest).map (fun rs => r :: rs))

/-- Structure-constraint field of the fasta header built by
`RNASynth._design`: `dot_bracket.replace('A', '-')`, every pad letter
becoming the visual placeholder. -/
def headerStructField (dot_bracket : List Char) : List Char :=
  dot_bracket.map (fun c => if c = 'A' then '-' else c)

/-- Sequence-constraint field of the fasta header built by
`RNASynth._design`: `seq_constraint.replace('N', '-')`. -/
def headerSeqField (seq_constraint : List Char) : List Char :=
  seq_constraint.map (fun c => if c = 'N' then '-' else c)

/-- Fasta header built by `RNASynth._design`: id, synthesis index and
the two placeholder-substituted constraint strings joined by `;`. -/
def designHeader (fasta_id : String) (count : Nat)
    (dot_bracket seq_constraint : List Char) : String :=
  fasta_id ++ ";" ++ toString count ++ ";" ++
    String.mk (headerStructField dot_bracket) ++ ";" ++
    String.mk (headerSeqField seq_constraint)

/-- Endpoint list of a basepair list, in order. -/
def bpEndpoints (bps : List (Nat × Nat)) : List Nat :=
  (bps.map (fun ij => [ij.1, ij.2])).flatten

/-- Well-formedness of an annotated graph per the spec data model: node
ids are exactly `0..N-1` in sequence order, every node carries label
and importance, and every edge connects existing nodes. -/
def WellFormed (g : AnnGraph) : Prop :=
  g.nodes.map Prod.fst = List.range g.nodes.length ∧
  (∀ p ∈ g.nodes, (p.2.label).isSome ∧ (p.2.importance).isSome) ∧
  (∀ e ∈ g.edges, e.1 ∈ nodeIds g ∧ e.2.1 ∈ nodeIds g)

/-- Label of a node: the `label` attribute of the first node entry with
the given id. -/
def labelOf (g : AnnGraph) (n : Nat) : Option Char :=
  (g.nodes.find? (fun p => p.1 == n)).bind (fun p => p.2.label)

/-- Concrete 4-node hairpin: basepairs (0,3) and (1,2), importance
scores 1, 1, -3, 1. -/
def hairpin4 : AnnGraph :=
  ⟨"hairpin4",
   [(0, ⟨some 'G', some 1⟩), (1, ⟨some 'A', some 1⟩),
    (2, ⟨some 'U', some (-3)⟩), (3, ⟨some 'C', some 1⟩)],
   [(0, 1, EdgeType.backbone), (1, 2, EdgeType.backbone),
    (2, 3, EdgeType.backbone), (0, 3, EdgeType.basepair),
    (1, 2, EdgeType.basepair)]⟩

/-- Concrete malformed graph: its single node has id 1, so the node
ids are not 0-based contiguous. -/
def gBad : AnnGraph := ⟨"bad", [(1, ⟨some 'A', some 0⟩)], []⟩

lemma gcCountAux_ok (l : List (Nat × NodeData))
    (hl : ∀ p ∈ l, (p.2.label).isSome) :
    gcCountAux l =
      Except.ok (l.countP
        (fun p => p.2.label == some 'G' || p.2.label == some 'C')) := by
  induction l with
  | nil => simp [gcCountAux]
  | cons p rest ih =>
    obtain ⟨c, hc⟩ := Option.isSome_iff_exists.mp (hl p (List.mem_cons_self p rest))
    have ih' := ih (fun q hq => hl q (List.mem_cons_of_mem p hq))
    by_cases h : c = 'G' ∨ c = 'C'
    · have hb : (p.2.label == some 'G' || p.2.label == some 'C') = true := by
        rcases h with h | h <;> simp [hc, h]
      simp [gcCountAux, hc, ih', Except.map, List.countP_cons, hb, h, Nat.add_comm]
    · have h1 : c ≠ 'G' := fun hh => h (Or.inl hh)
      have h2 : c ≠ 'C' := fun hh => h (Or.inr hh)
      have hb : (p.2.label == some 'G' || p.2.label == some 'C') = false := by
        simp [hc, h1, h2]
      simp [gcCountAux, hc, ih', Except.map, List.countP_cons, hb, h]

/-- C5: with every node label present, `_compute_gc_content` on a graph
with at least one node returns exactly (#G + #C) / N as a rational, and
on a zero-node graph it fails with `ZeroNodeGraphError` instead of
returning a value. -/
theorem c5_gc_content (g : AnnGraph)
    (hl : ∀ p ∈ g.nodes, (p.2.label).isSome) :
    (g.nodes.length = 0 →
      compute_gc_content g = Except.error ExtractError.zeroNodeGraph) ∧
    (0 < g.nodes.length →
      compute_gc_content g =
        Except.ok
          ((g.nodes.countP
              (fun p => p.2.label == some 'G' || p.2.label == some 'C') : ℚ) /
            (g.nodes.length : ℚ))) := by
  constructor
  · intro h0
    simp [compute_gc_content, gcCountAux_ok g.nodes hl, Except.bind, h0]
  · intro hpos
    have hne : g.nodes.length ≠ 0 := Nat.pos_iff_ne_zero.mp hpos
    simp [compute_gc_content, gcCountAux_ok g.nodes hl, Except.bind, hne]

/-- Witness for C5: the empty graph raises `ZeroNodeGraphError`, and a
concrete 4-node graph labeled A, G, C, G has GC content 3/4. -/
theorem c5_gc_content_witness :
    compute_gc_content ⟨"e", [], []⟩ = Except.error ExtractError.zeroNodeGraph ∧
    compute_gc_content
      ⟨"w",
        [(0, ⟨some 'A', some 1⟩), (1, ⟨some 'G', some 1⟩),
         (2, ⟨some 'C', some 1⟩), (3, ⟨some 'G', some 1⟩)], []⟩ =
      Except.ok ((3 : ℚ) / 4) := by
  constructor
  · exact (c5_gc_content ⟨"e", [], []⟩ (by intro p hp; simp at hp)).1 rfl
  · have h := (c5_gc_content
      ⟨"w",
        [(0, ⟨some 'A', some 1⟩), (1, ⟨some 'G', some 1⟩),
         (2, ⟨some 'C', some 1⟩), (3, ⟨some 'G', some 1⟩)], []⟩
      (by intro p hp; fin_cases hp <;> rfl)).2 (by decide)
    simpa using h

/-- C6: both filtering stages of `sample` compare strictly: an item
scoring exactly the threshold is excluded by `_filter_graphs` and by
`_filter_seqs`, and in general an item is kept exactly when its score is
strictly greater than the threshold. -/
theorem c6_strict_filters {α β γ : Type}
    (score_in : α → ℚ) (thr_in : ℚ) (graphs : List α) (g : α)
    (fold_mfe : β → γ) (score_out : γ → ℚ) (thr_out : ℚ) (seqs : List β) (s : β)
    (hg : score_in g = thr_in) (hs : score_out (fold_mfe s) = thr_out) :
    g ∉ filter_graphs score_in thr_in graphs ∧
    s ∉ filter_seqs fold_mfe score_out thr_out seqs ∧
    (∀ x, x ∈ filter_graphs score_in thr_in graphs ↔
      x ∈ graphs ∧ thr_in < score_in x) ∧
    (∀ y, y ∈ filter_seqs fold_mfe score_out thr_out seqs ↔
      y ∈ seqs ∧ thr_out < score_out (fold_mfe y)) := by
  refine ⟨?_, ?_, ?_, ?_⟩
  · intro hmem
    rw [filter_graphs, List.mem_filter] at hmem
    have := of_decide_eq_true hmem.2
    rw [hg] at this
    exact lt_irrefl thr_in this
  · intro hmem
    rw [filter_seqs, List.mem_filter] at hmem
    have := of_decide_eq_true hmem.2
    rw [hs] at this
    exact lt_irrefl thr_out this
  · intro x
    rw [filter_graphs, List.mem_filter, decide_eq_true_iff]
  · intro y
    rw [filter_seqs, List.mem_filter, decide_eq_true_iff]

/-- Witness for C6: with the constant score 0 and threshold 0, the sole
candidate is excluded by both filters. -/
theorem c6_strict_filters_witness :
    (() ∉ filter_graphs (fun _ : Unit => (0 : ℚ)) 0 [()]) ∧
    (() ∉ filter_seqs (fun u : Unit => u) (fun _ : Unit => (0 : ℚ)) 0 [()]) := by
  have h := c6_strict_filters (fun _ : Unit => (0 : ℚ)) 0 [()] ()
    (fun u : Unit => u) (fun _ : Unit => (0 : ℚ)) 0 [()] () rfl rfl
  exact ⟨h.1, h.2.1⟩

/-- C10: `fit` returns the instance it was invoked on with the
estimator replaced by the newly trained classifier and every other
field unchanged, and `fit_sample` chains `sample` on the object
returned by `fit`. -/
theorem c10_fit_frame {E V D P C S O : Type} (s : RNASynthState E V D P C)
    (trained : E) (sample : RNASynthState E V D P C → S → O) (seqs_ : S) :
    RNASynth.fit s trained = { s with estimator := trained } ∧
    (RNASynth.fit s trained).estimator = trained ∧
    (RNASynth.fit s trained).vectorizer = s.vectorizer ∧
    (RNASynth.fit s trained).designer = s.designer ∧
    (RNASynth.fit s trained).pre_processor = s.pre_processor ∧
    (RNASynth.fit s trained).constraint_extractor = s.constraint_extractor ∧
    (RNASynth.fit s trained).n_synthesized_seqs_per_seed_seq =
      s.n_synthesized_seqs_per_seed_seq ∧
    (RNASynth.fit s trained).instance_score_threshold_in =
      s.instance_score_threshold_in ∧
    (RNASynth.fit s trained).instance_score_threshold_out =
      s.instance_score_threshold_out ∧
    (RNASynth.fit s trained).shuffle_order = s.shuffle_order ∧
    (RNASynth.fit s trained).negative_shuffle_ratio = s.negative_shuffle_ratio ∧
    (RNASynth.fit s trained).n_jobs = s.n_jobs ∧
    (RNASynth.fit s trained).cv = s.cv ∧
    (RNASynth.fit s trained).n_iter_search = s.n_iter_search ∧
    RNASynth.fit_sample s trained sample seqs_ =
      sample (RNASynth.fit s trained) seqs_ := by
  refine ⟨rfl, rfl, rfl, rfl, rfl, rfl, rfl, rfl, rfl, rfl, rfl, rfl, rfl, rfl, rfl⟩

lemma except_map_eq_ok {ε α β : Type} (f : α → β) (x : Except ε α) (b : β)
    (h : Except.map f x = Except.ok b) : ∃ a, x = Except.ok a ∧ f a = b := by
  cases x with
  | error e => simp [Except.map] at h
  | ok a =>
    simp only [Except.map, Except.ok.injEq] at h
    exact ⟨a, rfl, h⟩

lemma survivorsAux_eq (l : List (Nat × NodeData)) (t : ℚ)
    (himp : ∀ p ∈ l, (p.2.importance).isSome) :
    survivorsAux l t =
      Except.ok
        ((l.filter (fun p => !decide (p.2.importance.getD 0 < t))).map Prod.fst) := by
  induction l with
  | nil => simp [survivorsAux]
  | cons p rest ih =>
    obtain ⟨q, hq⟩ := Option.isSome_iff_exists.mp (himp p (List.mem_cons_self p rest))
    have ih' := ih (fun r hr => himp r (List.mem_cons_of_mem p hr))
    by_cases hlt : q < t
    · simp [survivorsAux, hq, ih', Except.map, List.filter_cons, hlt]
    · simp [survivorsAux, hq, ih', Except.map, List.filter_cons, hlt]

lemma mem_keptUnion_foldl (comps : List (List Nat)) (m : Nat) (a : List Nat) (n : Nat) :
    n ∈ comps.foldl (fun acc c => if m ≤ c.length then acc ++ c else acc) a ↔
      n ∈ a ∨ ∃ C ∈ comps, m ≤ C.length ∧ n ∈ C := by
  induction comps generalizing a with
  | nil => simp
  | cons c rest ih =>
    simp only [List.foldl_cons]
    by_cases h : m ≤ c.length
    · rw [if_pos h, ih]
      constructor
      · rintro (hmem | ⟨C, hC, hlen, hn⟩)
        · rcases List.mem_append.mp hmem with hmem | hmem
          · exact Or.inl hmem
          · exact Or.inr ⟨c, List.mem_cons_self c rest, h, hmem⟩
        · exact Or.inr ⟨C, List.mem_cons_of_mem c hC, hlen, hn⟩
      · rintro (hmem | ⟨C, hC, hlen, hn⟩)
        · exact Or.inl (List.mem_append.mpr (Or.inl hmem))
        · rcases List.mem_cons.mp hC with rfl | hC
          · exact Or.inl (List.mem_append.mpr (Or.inr hn))
          · exact Or.inr ⟨C, hC, hlen, hn⟩
    · rw [if_neg h, ih]
      constructor
      · rintro (hmem | ⟨C, hC, hlen, hn⟩)
        · exact Or.inl hmem
        · exact Or.inr ⟨C, List.mem_cons_of_mem c hC, hlen, hn⟩
      · rintro (hmem | ⟨C, hC, hlen, hn⟩)
        · exact Or.inl hmem
        · rcases List.mem_cons.mp hC with rfl | hC
          · exact absurd hlen h
          · exact Or.inr ⟨C, hC, hlen, hn⟩

lemma mem_keptUnion (comps : List (List Nat)) (m : Nat) (n : Nat) :
    n ∈ keptUnion m comps ↔ ∃ C ∈ comps, m ≤ C.length ∧ n ∈ C := by
  rw [keptUnion, mem_keptUnion_foldl]
  simp

/-- C1: for every graph whose nodes carry importance scores,
`_get_importance_list` with threshold `t` and minimum component size
`m` returns, non-inverted, exactly the union of the connected
components of size at least `m` of the subgraph obtained by deleting
every node with importance strictly below `t`, and, inverted, exactly
the complement of that union within the original node list; on the
5-node path with importances 2, 2, -1, 2, 2, threshold 0 and minimum
size 1 the two results are the node sets 0,1,3,4 and 2. -/
theorem c1_importance_sets (g : AnnGraph) (t : ℚ) (m : Nat)
    (himp : ∀ p ∈ g.nodes, (p.2.importance).isSome) :
    (∃ S L Li,
      survivorsAux g.nodes t = Except.ok S ∧
      get_importance_list g t m false = Except.ok L ∧
      get_importance_list g t m true = Except.ok Li ∧
      (∀ n, n ∈ S ↔ ∃ p ∈ g.nodes, p.1 = n ∧
        ∃ q, p.2.importance = some q ∧ ¬ q < t) ∧
      (∀ n, n ∈ L ↔ ∃ C ∈ connectedComponents S g.edges, m ≤ C.length ∧ n ∈ C) ∧
      (∀ n, n ∈ Li ↔ n ∈ nodeIds g ∧ n ∉ L)) ∧
    get_importance_list path5 0 1 false = Except.ok [0, 1, 3, 4] ∧
    get_importance_list path5 0 1 true = Except.ok [2] := by
  refine ⟨?_, by rfl, by rfl⟩
  have hS := survivorsAux_eq g.nodes t himp
  set S := (g.nodes.filter (fun p => !decide (p.2.importance.getD 0 < t))).map Prod.fst
    with hSdef
  refine ⟨S, keptUnion m (connectedComponents S g.edges),
    (nodeIds g).filter (fun n => decide (n ∉ keptUnion m (connectedComponents S g.edges))),
    hS, ?_, ?_, ?_, ?_, ?_⟩
  · simp [get_importance_list, hS, Except.map]
  · simp [get_importance_list, hS, Except.map]
  · intro n
    rw [hSdef]
    constructor
    · intro hn
      obtain ⟨p, hp, rfl⟩ := List.mem_map.mp hn
      have hpf := List.mem_filter.mp hp
      obtain ⟨q, hq⟩ := Option.isSome_iff_exists.mp (himp p hpf.1)
      refine ⟨p, hpf.1, rfl, q, hq, ?_⟩
      have := hpf.2
      rw [hq] at this
      simpa using this
    · rintro ⟨p, hp, rfl, q, hq, hqt⟩
      refine List.mem_map.mpr ⟨p, List.mem_filter.mpr ⟨hp, ?_⟩, rfl⟩
      rw [hq]
      simpa using hqt
  · intro n
    exact mem_keptUnion _ m n
  · intro n
    rw [List.mem_filter]
    simp

/-- Witness for C1: the general characterisation applied to the 5-node
path, recovering the concrete important sets 0,1,3,4 and 2. -/
theorem c1_importance_sets_witness :
    get_importance_list path5 0 1 false = Except.ok [0, 1, 3, 4] ∧
    get_importance_list path5 0 1 true = Except.ok [2] :=
  (c1_importance_sets path5 0 1 (by decide)).2

lemma lookupd_cons (p : Nat × Char) (d : List (Nat × Char)) (k : Nat) :
    lookupd (p :: d) k = if p.1 = k then some p.2 else lookupd d k := by
  by_cases h : p.1 = k <;> simp [lookupd, List.find?_cons, h]

lemma dictSet_cons_ne (p : Nat × Char) (d : List (Nat × Char)) (k : Nat) (v : Char)
    (hp : p.1 ≠ k) : dictSet (p :: d) k v = p :: dictSet d k v := by
  have hpb : (p.1 == k) = false := by simp [hp]
  by_cases h : d.any (fun q => q.1 == k)
  · have hany : ((p :: d).any fun q => q.1 == k) = true := by
      simp [List.any_cons, h]
    unfold dictSet
    rw [if_pos hany, if_pos h, List.map_cons,
      if_neg (show ¬ ((p.1 == k) = true) from by simp [hpb])]
  · have hany : ((p :: d).any fun q => q.1 == k) = false := by
      simp only [List.any_cons, hpb, Bool.false_or]
      exact Bool.eq_false_iff.mpr h
    unfold dictSet
    rw [if_neg (show ¬ (((p :: d).any fun q => q.1 == k) = true) from by simp [hany]),
      if_neg h, List.cons_append]

lemma lookupd_dictSet_self (d : List (Nat × Char)) (k : Nat) (v : Char) :
    lookupd (dictSet d k v) k = some v := by
  induction d with
  | nil => simp [dictSet, lookupd, List.find?_cons]
  | cons p rest ih =>
    by_cases hp : p.1 = k
    · have hpb : (p.1 == k) = true := by simp [hp]
      have hany : ((p :: rest).any fun q => q.1 == k) = true := by
        simp [List.any_cons, hpb]
      unfold dictSet
      rw [if_pos hany, List.map_cons, if_pos hpb, lookupd_cons,
        if_pos (show ((k, v) : Nat × Char).1 = k from rfl)]
    · rw [dictSet_cons_ne p rest k v hp, lookupd_cons]
      simp [hp, ih]

lemma lookupd_map_setk (d : List (Nat × Char)) (k j : Nat) (v : Char) (hjk : j ≠ k) :
    lookupd (d.map (fun q => if q.1 == k then (k, v) else q)) j = lookupd d j := by
  induction d with
  | nil => rfl
  | cons q rest ih =>
    rw [List.map_cons]
    by_cases hq : q.1 = k
    · have hqb : (q.1 == k) = true := by simp [hq]
      rw [if_pos hqb, lookupd_cons, lookupd_cons,
        if_neg (show ¬ (((k, v) : Nat × Char).1 = j) from Ne.symm hjk),
        if_neg (show ¬ (q.1 = j) from by rw [hq]; exact Ne.symm hjk)]
      exact ih
    · have hqb : (q.1 == k) = false := by simp [hq]
      rw [if_neg (show ¬ ((q.1 == k) = true) from by simp [hqb]),
        lookupd_cons, lookupd_cons, ih]

lemma lookupd_append_ne (d : List (Nat × Char)) (k j : Nat) (v : Char) (hjk : j ≠ k) :
    lookupd (d ++ [(k, v)]) j = lookupd d j := by
  induction d with
  | nil =>
    have : (k == j) = false := by simp [Ne.symm hjk]
    simp [lookupd, List.find?_cons, this]
  | cons p rest ih =>
    rw [List.cons_append, lookupd_cons, lookupd_cons, ih]

lemma lookupd_dictSet_ne (d : List (Nat × Char)) (k j : Nat) (v : Char)
    (hjk : j ≠ k) : lookupd (dictSet d k v) j = lookupd d j := by
  simp only [dictSet]
  by_cases h : d.any (fun q => q.1 == k)
  · rw [if_pos h, lookupd_map_setk d k j v hjk]
  · rw [if_neg h, lookupd_append_ne d k j v hjk]

lemma keys_dictSet_mem (d : List (Nat × Char)) (k : Nat) (v : Char)
    (hk : k ∈ d.map Prod.fst) :
    (dictSet d k v).map Prod.fst = d.map Prod.fst := by
  have hany : d.any (fun q => q.1 == k) = true := by
    rw [List.any_eq_true]
    obtain ⟨p, hp, hpk⟩ := List.mem_map.mp hk
    exact ⟨p, hp, by simp [hpk]⟩
  simp only [dictSet, hany, if_true]
  rw [List.map_map]
  apply List.map_congr_left
  intro q hq
  by_cases hqk : q.1 = k
  · simp [hqk]
  · simp [hqk]

lemma lookupd_isSome_iff (d : List (Nat × Char)) (i : Nat) :
    (lookupd d i).isSome ↔ i ∈ d.map Prod.fst := by
  induction d with
  | nil => simp [lookupd]
  | cons p rest ih =>
    rw [lookupd_cons]
    by_cases hp : p.1 = i
    · simp [hp]
    · simp [Ne.symm hp, hp, ih]

lemma applyMarks_cons (c : Char) (n : Nat) (l : List Nat) (d : List (Nat × Char)) :
    applyMarks c (n :: l) d = applyMarks c l (dictSet d n c) := rfl

lemma lookupd_applyMarks (c : Char) (l : List Nat) (d : List (Nat × Char)) (p : Nat) :
    lookupd (applyMarks c l d) p = if p ∈ l then some c else lookupd d p := by
  induction l generalizing d with
  | nil => simp [applyMarks]
  | cons n rest ih =>
    rw [applyMarks_cons, ih]
    by_cases hp : p = n
    · subst hp
      by_cases hmem : p ∈ rest
      · simp [hmem]
      · simp [hmem, lookupd_dictSet_self]
    · by_cases hmem : p ∈ rest
      · simp [hmem, hp]
      · simp [hmem, hp, lookupd_dictSet_ne d n p c hp]

lemma keys_applyMarks (c : Char) (l : List Nat) (d : List (Nat × Char))
    (h : ∀ n ∈ l, n ∈ d.map Prod.fst) :
    (applyMarks c l d).map Prod.fst = d.map Prod.fst := by
  induction l generalizing d with
  | nil => rfl
  | cons n rest ih =>
    rw [applyMarks_cons]
    have hk := keys_dictSet_mem d n c (h n (List.mem_cons_self n rest))
    have h2 : ∀ x ∈ rest, x ∈ (dictSet d n c).map Prod.fst := by
      intro x hx
      rw [hk]
      exact h x (List.mem_cons_of_mem n hx)
    rw [ih (dictSet d n c) h2, hk]

lemma except_bind_eq_ok {ε α β : Type} (f : α → Except ε β) (x : Except ε α) (b : β)
    (h : x.bind f = Except.ok b) : ∃ a, x = Except.ok a ∧ f a = Except.ok b := by
  cases x with
  | error e => exact Except.noConfusion h
  | ok a => exact ⟨a, rfl, h⟩

lemma dictToStringGo_ok (d : List (Nat × Char)) (l : List Nat)
    (h : ∀ i ∈ l, (lookupd d i).isSome) :
    ∃ s, dictToStringGo d l = Except.ok s ∧ s.length = l.length ∧
      ∀ p : Nat, s[p]? = (l[p]?).bind (lookupd d) := by
  induction l with
  | nil =>
    refine ⟨[], rfl, rfl, ?_⟩
    intro p
    simp
  | cons i rest ih =>
    obtain ⟨c, hc⟩ := Option.isSome_iff_exists.mp (h i (List.mem_cons_self i rest))
    obtain ⟨s, hs, hlen, hget⟩ := ih (fun j hj => h j (List.mem_cons_of_mem i hj))
    refine ⟨c :: s, ?_, by simp [hlen], ?_⟩
    · simp [dictToStringGo, hc, hs, Except.map]
    · intro p
      cases p with
      | zero => simp [hc]
      | succ q => simpa using hget q

lemma dictToStringGo_err (d : List (Nat × Char)) (l : List Nat)
    (h : ∃ i ∈ l, lookupd d i = none) :
    dictToStringGo d l = Except.error ExtractError.graphMalformed := by
  induction l with
  | nil => simp at h
  | cons i rest ih =>
    obtain ⟨j, hj, hnone⟩ := h
    rcases List.mem_cons.mp hj with rfl | hj'
    · simp [dictToStringGo, hnone]
    · cases hli : lookupd d i with
      | none => simp [dictToStringGo, hli]
      | some c => simp [dictToStringGo, hli, ih ⟨j, hj', hnone⟩, Except.map]

lemma dict_to_string_ok (d : List (Nat × Char))
    (h : ∀ i, i < d.length → (lookupd d i).isSome) :
    ∃ s, dict_to_string d = Except.ok s ∧ s.length = d.length ∧
      ∀ p : Nat, p < d.length → s[p]? = lookupd d p := by
  obtain ⟨s, hs, hlen, hget⟩ := dictToStringGo_ok d (List.range d.length)
    (fun i hi => h i (List.mem_range.mp hi))
  refine ⟨s, hs, by simpa using hlen, ?_⟩
  intro p hp
  have h2 := hget p
  rw [List.getElem?_range hp] at h2
  simpa using h2

lemma dictToStringGo_mem (d : List (Nat × Char)) (l : List Nat) (s : List Char)
    (h : dictToStringGo d l = Except.ok s) :
    ∀ c ∈ s, ∃ i ∈ l, lookupd d i = some c := by
  induction l generalizing s with
  | nil =>
    intro c hc
    simp only [dictToStringGo] at h
    obtain rfl : ([] : List Char) = s := by
      exact Except.ok.inj h
    simp at hc
  | cons i rest ih =>
    intro c hc
    cases hli : lookupd d i with
    | none => simp [dictToStringGo, hli] at h
    | some c0 =>
      simp only [dictToStringGo, hli] at h
      obtain ⟨s', hs', hcons⟩ := except_map_eq_ok _ _ _ h
      subst hcons
      rcases List.mem_cons.mp hc with rfl | hc'
      · exact ⟨i, List.mem_cons_self i rest, hli⟩
      · obtain ⟨j, hj, hlj⟩ := ih s' hs' c hc'
        exact ⟨j, List.mem_cons_of_mem i hj, hlj⟩

lemma gcCountAux_err (l : List (Nat × NodeData))
    (h : ∃ p ∈ l, p.2.label = none) :
    gcCountAux l = Except.error ExtractError.graphMalformed := by
  induction l with
  | nil => simp at h
  | cons p rest ih =>
    obtain ⟨q, hq, hnone⟩ := h
    rcases List.mem_cons.mp hq with rfl | hq'
    · simp [gcCountAux, hnone]
    · cases hl : p.2.label with
      | none => simp [gcCountAux, hl]
      | some c => simp [gcCountAux, hl, ih ⟨q, hq', hnone⟩, Except.map]

lemma survivorsAux_err (l : List (Nat × NodeData)) (t : ℚ)
    (h : ∃ p ∈ l, p.2.importance = none) :
    survivorsAux l t = Except.error ExtractError.graphMalformed := by
  induction l with
  | nil => simp at h
  | cons p rest ih =>
    obtain ⟨q, hq, hnone⟩ := h
    rcases List.mem_cons.mp hq with rfl | hq'
    · simp [survivorsAux, hnone]
    · cases hl : p.2.importance with
      | none => simp [survivorsAux, hl]
      | some c => simp [survivorsAux, hl, ih ⟨q, hq', hnone⟩, Except.map]

lemma build_nodes_dict_ok (l : List (Nat × NodeData))
    (hl : ∀ p ∈ l, (p.2.label).isSome) :
    ∃ d, build_nodes_dict l = Except.ok d ∧
      d.map Prod.fst = l.map Prod.fst ∧
      ∀ n : Nat, lookupd d n =
        (l.find? (fun p => p.1 == n)).bind (fun p => p.2.label) := by
  induction l with
  | nil => exact ⟨[], rfl, rfl, fun n => rfl⟩
  | cons p rest ih =>
    obtain ⟨c, hc⟩ := Option.isSome_iff_exists.mp (hl p (List.mem_cons_self p rest))
    obtain ⟨d, hd, hkeys, hlook⟩ := ih (fun q hq => hl q (List.mem_cons_of_mem p hq))
    refine ⟨(p.1, c) :: d, ?_, ?_, ?_⟩
    · simp [build_nodes_dict, hc, hd, Except.map]
    · simp [hkeys]
    · intro n
      rw [lookupd_cons]
      by_cases hn : p.1 = n
      · simp [List.find?_cons, hn, hc]
      · simp [List.find?_cons, hn, hlook n]

lemma mem_addIfAbsent (l : List Nat) (n m : Nat) :
    m ∈ addIfAbsent l n ↔ m ∈ l ∨ m = n := by
  rw [addIfAbsent]
  by_cases h : l.contains n
  · rw [if_pos h]
    constructor
    · exact Or.inl
    · rintro (hm | rfl)
      · exact hm
      · simpa using h
  · rw [if_neg h]
    simp

lemma mem_find_paired_foldl (edges : List (Nat × Nat × EdgeType)) (acc : List Nat) (n : Nat) :
    n ∈ edges.foldl
      (fun acc e =>
        if e.2.2 == EdgeType.basepair then addIfAbsent (addIfAbsent acc e.1) e.2.1
        else acc) acc ↔
      n ∈ acc ∨ ∃ e ∈ edges, e.2.2 = EdgeType.basepair ∧ (n = e.1 ∨ n = e.2.1) := by
  induction edges generalizing acc with
  | nil => simp
  | cons e rest ih =>
    rw [List.foldl_cons]
    by_cases he : e.2.2 = EdgeType.basepair
    · have heb : (e.2.2 == EdgeType.basepair) = true := by simp [he]
      rw [if_pos heb, ih, mem_addIfAbsent, mem_addIfAbsent]
      constructor
      · rintro (((hm | rfl) | rfl) | ⟨e2, he2, hp, hn⟩)
        · exact Or.inl hm
        · exact Or.inr ⟨e, List.mem_cons_self e rest, he, Or.inl rfl⟩
        · exact Or.inr ⟨e, List.mem_cons_self e rest, he, Or.inr rfl⟩
        · exact Or.inr ⟨e2, List.mem_cons_of_mem e he2, hp, hn⟩
      · rintro (hm | ⟨e2, he2, hp, hn⟩)
        · exact Or.inl (Or.inl (Or.inl hm))
        · rcases List.mem_cons.mp he2 with rfl | he3
          · rcases hn with rfl | rfl
            · exact Or.inl (Or.inl (Or.inr rfl))
            · exact Or.inl (Or.inr rfl)
          · exact Or.inr ⟨e2, he3, hp, hn⟩
    · have heb : ¬ ((e.2.2 == EdgeType.basepair) = true) := by simp [he]
      rw [if_neg heb, ih]
      constructor
      · rintro (hm | ⟨e2, he2, hp, hn⟩)
        · exact Or.inl hm
        · exact Or.inr ⟨e2, List.mem_cons_of_mem e he2, hp, hn⟩
      · rintro (hm | ⟨e2, he2, hp, hn⟩)
        · exact Or.inl hm
        · rcases List.mem_cons.mp he2 with rfl | he3
          · exact absurd hp he
          · exact Or.inr ⟨e2, he3, hp, hn⟩

lemma mem_find_paired_nodes (g : AnnGraph) (n : Nat) :
    n ∈ find_paired_nodes g ↔
      ∃ e ∈ g.edges, e.2.2 = EdgeType.basepair ∧ (n = e.1 ∨ n = e.2.1) := by
  have h := mem_find_paired_foldl g.edges [] n
  simpa [find_paired_nodes] using h

lemma compOf_subset (S : List Nat) (E : List (Nat × Nat × EdgeType)) (s : Nat)
    (hS : 0 < S.length) : ∀ x ∈ compOf S E s, x ∈ S := by
  intro x hx
  simp only [compOf] at hx
  obtain ⟨k, hk⟩ : ∃ k, S.length = k + 1 :=
    ⟨S.length - 1, (Nat.succ_pred_eq_of_pos hS).symm⟩
  rw [hk, Function.iterate_succ_apply'] at hx
  exact (List.mem_filter.mp hx).1

lemma mem_connectedComponents_subset (S : List Nat) (E : List (Nat × Nat × EdgeType))
    (C : List Nat) (hC : C ∈ connectedComponents S E) : ∀ x ∈ C, x ∈ S := by
  simp only [connectedComponents] at hC
  obtain ⟨s, hs, rfl⟩ := List.mem_map.mp (List.mem_dedup.mp hC)
  exact compOf_subset S E s (List.length_pos_of_mem hs)

lemma find_unpaired_subset (g : AnnGraph) (mu : Nat) :
    ∀ n ∈ find_unpaired_regions g mu,
      n ∈ nodeIds g ∧ n ∉ find_paired_nodes g := by
  intro n hn
  simp only [find_unpaired_regions] at hn
  rw [mem_keptUnion] at hn
  obtain ⟨C, hC, hlen, hnC⟩ := hn
  have hsub := mem_connectedComponents_subset _ g.edges C hC n hnC
  have hf := List.mem_filter.mp hsub
  exact ⟨hf.1, by simpa using hf.2⟩

lemma get_importance_list_eq (g : AnnGraph) (t : ℚ) (m : Nat)
    (himp : ∀ p ∈ g.nodes, (p.2.importance).isSome) :
    get_importance_list g t m false =
      Except.ok (keptUnion m (connectedComponents
        ((g.nodes.filter
          (fun p => !decide (p.2.importance.getD 0 < t))).map Prod.fst) g.edges)) ∧
    get_importance_list g t m true =
      Except.ok ((nodeIds g).filter (fun n =>
        decide (n ∉ keptUnion m (connectedComponents
          ((g.nodes.filter
            (fun p => !decide (p.2.importance.getD 0 < t))).map Prod.fst) g.edges)))) := by
  constructor <;>
    simp [get_importance_list, survivorsAux_eq g.nodes t himp, Except.map]

lemma lookupd_generic (nodes : List (Nat × NodeData)) (c : Char) (n : Nat) :
    lookupd (nodes.map (fun p => (p.1, c))) n =
      if n ∈ nodes.map Prod.fst then some c else none := by
  induction nodes with
  | nil => simp [lookupd]
  | cons p rest ih =>
    rw [List.map_cons, lookupd_cons]
    by_cases hp : p.1 = n
    · simp [List.map_cons, hp]
    · rw [if_neg hp, ih, List.map_cons]
      by_cases hm : n ∈ rest.map Prod.fst
      · simp [hm, hp]
      · simp [hm, hp, Ne.symm hp]

lemma basepair_endpoints_mem (g : AnnGraph)
    (hedges : ∀ e ∈ g.edges, e.1 ∈ nodeIds g ∧ e.2.1 ∈ nodeIds g) :
    ∀ ij ∈ get_basepair_list g, ij.1 ∈ nodeIds g ∧ ij.2 ∈ nodeIds g := by
  intro ij hij
  simp only [get_basepair_list, List.mem_map, List.mem_filter] at hij
  obtain ⟨e, ⟨he, _⟩, rfl⟩ := hij
  exact hedges e he

lemma keys_applyBasepairs (imp : List Nat) (bps : List (Nat × Nat))
    (d : List (Nat × Char))
    (h : ∀ ij ∈ bps, ij.1 ∈ d.map Prod.fst ∧ ij.2 ∈ d.map Prod.fst) :
    (applyBasepairs imp bps d).map Prod.fst = d.map Prod.fst := by
  induction bps generalizing d with
  | nil => rfl
  | cons ij rest ih =>
    obtain ⟨i, j⟩ := ij
    simp only [applyBasepairs]
    by_cases hij : i ∈ imp ∧ j ∈ imp
    · rw [if_pos hij]
      have hi := (h (i, j) (List.mem_cons_self _ _)).1
      have hj := (h (i, j) (List.mem_cons_self _ _)).2
      have hk1 : (dictSet d i '(').map Prod.fst = d.map Prod.fst :=
        keys_dictSet_mem d i _ hi
      have hk2 : (dictSet (dictSet d i '(') j ')').map Prod.fst = d.map Prod.fst := by
        rw [keys_dictSet_mem _ j _ (by rw [hk1]; exact hj), hk1]
      have h2 : ∀ kl ∈ rest,
          kl.1 ∈ (dictSet (dictSet d i '(') j ')').map Prod.fst ∧
          kl.2 ∈ (dictSet (dictSet d i '(') j ')').map Prod.fst := by
        intro kl hkl
        rw [hk2]
        exact h kl (List.mem_cons_of_mem _ hkl)
      rw [ih _ h2, hk2]
    · rw [if_neg hij]
      exact ih d (fun kl hkl => h kl (List.mem_cons_of_mem _ hkl))

lemma extract_sequence_constraints_spec (g : AnnGraph) (t : ℚ) (m : Nat)
    (hwf : WellFormed g) :
    ∃ s imp, extract_sequence_constraints g t m = Except.ok s ∧
      get_importance_list g t m false = Except.ok imp ∧
      s.length = g.nodes.length ∧
      ∀ p : Nat, p < g.nodes.length →
        s[p]? = if p ∈ imp then labelOf g p else some 'N' := by
  obtain ⟨hids, hattr, hedges⟩ := hwf
  have hidsN : nodeIds g = List.range g.nodes.length := hids
  obtain ⟨d, hd, hkeys, hlook⟩ :=
    build_nodes_dict_ok g.nodes (fun p hp => (hattr p hp).1)
  have hG := get_importance_list_eq g t m (fun p hp => (hattr p hp).2)
  set L := keptUnion m (connectedComponents
    ((g.nodes.filter
      (fun p => !decide (p.2.importance.getD 0 < t))).map Prod.fst) g.edges) with hLdef
  set inv := (nodeIds g).filter (fun n => decide (n ∉ L)) with hinvdef
  have hglF : get_importance_list g t m false = Except.ok L := hG.1
  have hglT : get_importance_list g t m true = Except.ok inv := hG.2
  have hkeysd : d.map Prod.fst = nodeIds g := hkeys
  have hinvsub : ∀ n ∈ inv, n ∈ d.map Prod.fst := by
    intro n hn
    rw [hkeysd]
    exact (List.mem_filter.mp hn).1
  have hkeys2 : (applyMarks 'N' inv d).map Prod.fst = nodeIds g := by
    rw [keys_applyMarks 'N' inv d hinvsub, hkeysd]
  have hlen2 : (applyMarks 'N' inv d).length = g.nodes.length := by
    have h := congrArg List.length hkeys2
    simpa [nodeIds] using h
  have hsome : ∀ i, i < (applyMarks 'N' inv d).length →
      (lookupd (applyMarks 'N' inv d) i).isSome := by
    intro i hi
    rw [lookupd_isSome_iff, hkeys2, hidsN]
    rw [hlen2] at hi
    exact List.mem_range.mpr hi
  obtain ⟨s, hs, hslen, hsget⟩ := dict_to_string_ok (applyMarks 'N' inv d) hsome
  refine ⟨s, L, ?_, hglF, by rw [hslen, hlen2], ?_⟩
  · simp [extract_sequence_constraints, hd, hglT, Except.bind, hs]
  · intro p hp
    have hp2 : p < (applyMarks 'N' inv d).length := by
      rw [hlen2]
      exact hp
    rw [hsget p hp2, lookupd_applyMarks]
    have hpmem : p ∈ nodeIds g := by
      rw [hidsN]
      exact List.mem_range.mpr hp
    by_cases hL : p ∈ L
    · have hnotinv : p ∉ inv := by
        rw [hinvdef]
        intro hcon
        have h2 := (List.mem_filter.mp hcon).2
        exact absurd hL (by simpa using h2)
      rw [if_neg hnotinv, if_pos hL, hlook p]
      rfl
    · have hinv : p ∈ inv := by
        rw [hinvdef]
        exact List.mem_filter.mpr ⟨hpmem, by simpa using hL⟩
      rw [if_pos hinv, if_neg hL]

lemma extract_structure_constraints_spec (g : AnnGraph) (t : ℚ) (m mu : Nat)
    (hwf : WellFormed g) :
    ∃ s imp, extract_structure_constraints g t m mu = Except.ok s ∧
      get_importance_list g t m false = Except.ok imp ∧
      s.length = g.nodes.length ∧
      ∀ p : Nat, p < g.nodes.length →
        s[p]? = lookupd
          (applyMarks '.' (find_unpaired_regions g mu)
            (applyBasepairs imp (get_basepair_list g)
              (build_generic_nodes_dict g 'A'))) p := by
  obtain ⟨hids, hattr, hedges⟩ := hwf
  have hidsN : nodeIds g = List.range g.nodes.length := hids
  have hG := get_importance_list_eq g t m (fun p hp => (hattr p hp).2)
  set L := keptUnion m (connectedComponents
    ((g.nodes.filter
      (fun p => !decide (p.2.importance.getD 0 < t))).map Prod.fst) g.edges) with hLdef
  have hglF : get_importance_list g t m false = Except.ok L := hG.1
  have hkeys0 : (build_generic_nodes_dict g 'A').map Prod.fst = nodeIds g := by
    simp [build_generic_nodes_dict, nodeIds, List.map_map, Function.comp]
  have hbp := basepair_endpoints_mem g hedges
  have hbp0 : ∀ ij ∈ get_basepair_list g,
      ij.1 ∈ (build_generic_nodes_dict g 'A').map Prod.fst ∧
      ij.2 ∈ (build_generic_nodes_dict g 'A').map Prod.fst := by
    intro ij hij
    rw [hkeys0]
    exact hbp ij hij
  have hkeys1 : (applyBasepairs L (get_basepair_list g)
      (build_generic_nodes_dict g 'A')).map Prod.fst = nodeIds g := by
    rw [keys_applyBasepairs L (get_basepair_list g) _ hbp0, hkeys0]
  have hunp : ∀ n ∈ find_unpaired_regions g mu,
      n ∈ (applyBasepairs L (get_basepair_list g)
        (build_generic_nodes_dict g 'A')).map Prod.fst := by
    intro n hn
    rw [hkeys1]
    exact (find_unpaired_subset g mu n hn).1
  have hkeys2 : (applyMarks '.' (find_unpaired_regions g mu)
      (applyBasepairs L (get_basepair_list g)
        (build_generic_nodes_dict g 'A'))).map Prod.fst = nodeIds g := by
    rw [keys_applyMarks '.' _ _ hunp, hkeys1]
  have hlen2 : (applyMarks '.' (find_unpaired_regions g mu)
      (applyBasepairs L (get_basepair_list g)
        (build_generic_nodes_dict g 'A'))).length = g.nodes.length := by
    have h := congrArg List.length hkeys2
    simpa [nodeIds] using h
  have hsome : ∀ i, i < (applyMarks '.' (find_unpaired_regions g mu)
      (applyBasepairs L (get_basepair_list g)
        (build_generic_nodes_dict g 'A'))).length →
      (lookupd (applyMarks '.' (find_unpaired_regions g mu)
        (applyBasepairs L (get_basepair_list g)
          (build_generic_nodes_dict g 'A'))) i).isSome := by
    intro i hi
    rw [lookupd_isSome_iff, hkeys2, hidsN]
    rw [hlen2] at hi
    exact List.mem_range.mpr hi
  obtain ⟨s, hs, hslen, hsget⟩ := dict_to_string_ok _ hsome
  refine ⟨s, L, ?_, hglF, by rw [hslen, hlen2], ?_⟩
  · simp [extract_structure_constraints, hglF, Except.bind, hs]
  · intro p hp
    have hp2 : p < (applyMarks '.' (find_unpaired_regions g mu)
        (applyBasepairs L (get_basepair_list g)
          (build_generic_nodes_dict g 'A'))).length := by
      rw [hlen2]
      exact hp
    exact hsget p hp2

lemma path5_wf : WellFormed path5 :=
  ⟨by rfl, by decide, by decide⟩

/-- C4: for a well-formed annotated graph, the sequence constraint of
`_extract_sequence_constraints` keeps the actual nucleotide label at
every position of the non-inverted important set (computed with the
sequence-constraint threshold and minimum component size) and holds the
wildcard `'N'` at every other position. -/
theorem c4_sequence_constraint (g : AnnGraph) (t : ℚ) (m : Nat)
    (s : List Char) (imp : List Nat) (hwf : WellFormed g)
    (hs : extract_sequence_constraints g t m = Except.ok s)
    (himp : get_importance_list g t m false = Except.ok imp) :
    s.length = g.nodes.length ∧
    ∀ p : Nat, p < g.nodes.length →
      s[p]? = if p ∈ imp then labelOf g p else some 'N' := by
  obtain ⟨s2, imp2, hs2, himp2, hlen2, hget2⟩ :=
    extract_sequence_constraints_spec g t m hwf
  rw [hs2] at hs
  rw [himp2] at himp
  obtain rfl : s2 = s := Except.ok.inj hs
  obtain rfl : imp2 = imp := Except.ok.inj himp
  exact ⟨hlen2, hget2⟩

/-- Witness for C4: on the 5-node path with sequence threshold 0 and
minimum component size 1, the sequence constraint is `ACNUA`: position
2 (the only unimportant node) is wildcarded, the rest keep their
labels. -/
theorem c4_sequence_constraint_witness :
    (['A', 'C', 'N', 'U', 'A'] : List Char).length = path5.nodes.length ∧
    (['A', 'C', 'N', 'U', 'A'] : List Char)[2]? =
      (if 2 ∈ [0, 1, 3, 4] then labelOf path5 2 else some 'N') ∧
    (['A', 'C', 'N', 'U', 'A'] : List Char)[0]? =
      (if 0 ∈ [0, 1, 3, 4] then labelOf path5 0 else some 'N') := by
  have h := c4_sequence_constraint path5 0 1 ['A', 'C', 'N', 'U', 'A'] [0, 1, 3, 4]
    path5_wf rfl rfl
  exact ⟨h.1, h.2 2 (by decide), h.2 0 (by decide)⟩

/-- C7: for a well-formed annotated graph with `N` nodes, both
constraint strings of a record yielded by `extract_constraints` have
length exactly `N`. -/
theorem c7_constraint_lengths (P : ExtractorParams) (g : AnnGraph)
    (r : ConstraintRecord) (hwf : WellFormed g)
    (hok : extract_constraints_one P g = Except.ok r) :
    r.struct.length = g.nodes.length ∧ r.cseq.length = g.nodes.length := by
  obtain ⟨sseq, impseq, hseq, _, hseqlen, _⟩ :=
    extract_sequence_constraints_spec g
      P.importance_threshold_sequence_constraint
      P.min_size_connected_component_sequence_constraint hwf
  obtain ⟨sst, impst, hst, _, hstlen, _⟩ :=
    extract_structure_constraints_spec g
      P.importance_threshold_structure_constraint
      P.min_size_connected_component_structure_constraint
      P.min_size_connected_component_unpaired_structure_constraint hwf
  obtain ⟨gc, hgc, h2⟩ := except_bind_eq_ok _ _ _ hok
  obtain ⟨cs, hcs, h3⟩ := except_bind_eq_ok _ _ _ h2
  obtain ⟨st, hstv, h4⟩ := except_map_eq_ok _ _ _ h3
  subst h4
  rw [hseq] at hcs
  rw [hst] at hstv
  obtain rfl : sseq = cs := Except.ok.inj hcs
  obtain rfl : sst = st := Except.ok.inj hstv
  exact ⟨hstlen, hseqlen⟩

/-- Witness for C7: the record extracted from the 5-node path has
structure constraint `.....` and sequence constraint `ACNUA`, both of
length 5. -/
theorem c7_constraint_lengths_witness :
    (⟨['.', '.', '.', '.', '.'], ['A', 'C', 'N', 'U', 'A'], 2 / 5, "path5"⟩ :
      ConstraintRecord).struct.length = path5.nodes.length ∧
    (⟨['.', '.', '.', '.', '.'], ['A', 'C', 'N', 'U', 'A'], 2 / 5, "path5"⟩ :
      ConstraintRecord).cseq.length = path5.nodes.length :=
  c7_constraint_lengths defaultParams path5
    ⟨['.', '.', '.', '.', '.'], ['A', 'C', 'N', 'U', 'A'], 2 / 5, "path5"⟩
    path5_wf rfl

lemma lookupd_applyBasepairs_notmem (imp : List Nat) (bps : List (Nat × Nat))
    (d : List (Nat × Char)) (p : Nat)
    (hp : ∀ ij ∈ bps, p ≠ ij.1 ∧ p ≠ ij.2) :
    lookupd (applyBasepairs imp bps d) p = lookupd d p := by
  induction bps generalizing d with
  | nil => rfl
  | cons ij rest ih =>
    obtain ⟨i, j⟩ := ij
    simp only [applyBasepairs]
    have hpi := (hp (i, j) (List.mem_cons_self _ _)).1
    have hpj := (hp (i, j) (List.mem_cons_self _ _)).2
    by_cases hij : i ∈ imp ∧ j ∈ imp
    · rw [if_pos hij, ih _ (fun kl hkl => hp kl (List.mem_cons_of_mem _ hkl)),
        lookupd_dictSet_ne _ j p _ hpj, lookupd_dictSet_ne _ i p _ hpi]
    · rw [if_neg hij]
      exact ih d (fun kl hkl => hp kl (List.mem_cons_of_mem _ hkl))

lemma bpEndpoints_cons (k l : Nat) (rest : List (Nat × Nat)) :
    bpEndpoints ((k, l) :: rest) = k :: l :: bpEndpoints rest := rfl

lemma mem_bpEndpoints_of_mem (bps : List (Nat × Nat)) (i j : Nat)
    (h : (i, j) ∈ bps) : i ∈ bpEndpoints bps ∧ j ∈ bpEndpoints bps := by
  constructor <;>
  · simp only [bpEndpoints, List.mem_flatten]
    exact ⟨[i, j], List.mem_map.mpr ⟨(i, j), h, rfl⟩, by simp⟩

lemma applyBasepairs_bracket (imp : List Nat) (bps : List (Nat × Nat))
    (d : List (Nat × Char)) (i j : Nat)
    (hnodup : (bpEndpoints bps).Nodup) (hij : (i, j) ∈ bps) :
    (i ∈ imp ∧ j ∈ imp →
      lookupd (applyBasepairs imp bps d) i = some '(' ∧
      lookupd (applyBasepairs imp bps d) j = some ')') ∧
    (¬ (i ∈ imp ∧ j ∈ imp) →
      lookupd (applyBasepairs imp bps d) i = lookupd d i ∧
      lookupd (applyBasepairs imp bps d) j = lookupd d j) := by
  revert hnodup hij
  induction bps generalizing d with
  | nil =>
    intro hnodup hij
    simp at hij
  | cons kl rest ih =>
    intro hnodup hij
    obtain ⟨k, l⟩ := kl
    rw [bpEndpoints_cons] at hnodup
    have hkE : k ∉ l :: bpEndpoints rest := (List.nodup_cons.mp hnodup).1
    have hrest1 := (List.nodup_cons.mp hnodup).2
    have hlE : l ∉ bpEndpoints rest := (List.nodup_cons.mp hrest1).1
    have hnodup2 : (bpEndpoints rest).Nodup := (List.nodup_cons.mp hrest1).2
    rcases List.mem_cons.mp hij with heq | hij2
    · obtain ⟨rfl, rfl⟩ : k = i ∧ l = j := by
        have h1 := congrArg Prod.fst heq
        have h2 := congrArg Prod.snd heq
        exact ⟨h1.symm, h2.symm⟩
      have hne : k ≠ l := fun hcon =>
        hkE (by rw [hcon]; exact List.mem_cons_self l _)
      have hiE : k ∉ bpEndpoints rest :=
        fun hcon => hkE (List.mem_cons_of_mem _ hcon)
      have hinot : ∀ kl2 ∈ rest, k ≠ kl2.1 ∧ k ≠ kl2.2 := by
        intro kl2 hkl2
        obtain ⟨hm1, hm2⟩ := mem_bpEndpoints_of_mem rest kl2.1 kl2.2 (by simpa using hkl2)
        exact ⟨fun hcon => hiE (by rw [hcon]; exact hm1),
          fun hcon => hiE (by rw [hcon]; exact hm2)⟩
      have hjnot : ∀ kl2 ∈ rest, l ≠ kl2.1 ∧ l ≠ kl2.2 := by
        intro kl2 hkl2
        obtain ⟨hm1, hm2⟩ := mem_bpEndpoints_of_mem rest kl2.1 kl2.2 (by simpa using hkl2)
        exact ⟨fun hcon => hlE (by rw [hcon]; exact hm1),
          fun hcon => hlE (by rw [hcon]; exact hm2)⟩
      constructor
      · intro hboth
        simp only [applyBasepairs]
        rw [if_pos hboth]
        constructor
        · rw [lookupd_applyBasepairs_notmem imp rest _ k hinot,
            lookupd_dictSet_ne _ l k _ hne, lookupd_dictSet_self]
        · rw [lookupd_applyBasepairs_notmem imp rest _ l hjnot,
            lookupd_dictSet_self]
      · intro hnot
        simp only [applyBasepairs]
        rw [if_neg hnot]
        exact ⟨lookupd_applyBasepairs_notmem imp rest d k hinot,
          lookupd_applyBasepairs_notmem imp rest d l hjnot⟩
    · have hiE2 := (mem_bpEndpoints_of_mem rest i j hij2).1
      have hjE2 := (mem_bpEndpoints_of_mem rest i j hij2).2
      have hik : i ≠ k := fun hcon =>
        hkE (List.mem_cons_of_mem _ (by rw [← hcon]; exact hiE2))
      have hil : i ≠ l := fun hcon => hlE (by rw [← hcon]; exact hiE2)
      have hjk : j ≠ k := fun hcon =>
        hkE (List.mem_cons_of_mem _ (by rw [← hcon]; exact hjE2))
      have hjl : j ≠ l := fun hcon => hlE (by rw [← hcon]; exact hjE2)
      simp only [applyBasepairs]
      by_cases hklimp : k ∈ imp ∧ l ∈ imp
      · rw [if_pos hklimp]
        have H := ih (dictSet (dictSet d k '(') l ')') hnodup2 hij2
        refine ⟨H.1, ?_⟩
        intro hnot
        obtain ⟨H1, H2⟩ := H.2 hnot
        rw [H1, H2, lookupd_dictSet_ne _ l i _ hil, lookupd_dictSet_ne _ k i _ hik,
          lookupd_dictSet_ne _ l j _ hjl, lookupd_dictSet_ne _ k j _ hjk]
        exact ⟨rfl, rfl⟩
      · rw [if_neg hklimp]
        exact ih d hnodup2 hij2

lemma mem_get_basepair_list_elim (g : AnnGraph) (i j : Nat)
    (h : (i, j) ∈ get_basepair_list g) :
    ∃ e ∈ g.edges, e.2.2 = EdgeType.basepair ∧ e.1 = i ∧ e.2.1 = j := by
  simp only [get_basepair_list, List.mem_map, List.mem_filter] at h
  obtain ⟨e, ⟨he, hb⟩, hpair⟩ := h
  have h1 := congrArg Prod.fst hpair
  have h2 := congrArg Prod.snd hpair
  exact ⟨e, he, by simpa using hb, h1, h2⟩

lemma hairpin4_wf : WellFormed hairpin4 :=
  ⟨by rfl, by decide, by decide⟩

/-- C2: in the structure constraint of `_extract_structure_constraints`,
a basepair edge `(i, j)` contributes `'('` at `i` and `')'` at `j`
exactly when both endpoints are in the non-inverted important set
computed with the structure-constraint threshold and component size
(and then the final string also carries those brackets); when at least
one endpoint is missing from the set, both positions are left at the
pad `'A'` by the basepair pass. -/
theorem c2_basepair_bracket_marks (g : AnnGraph) (t : ℚ) (m mu : Nat)
    (i j : Nat) (imp : List Nat) (s : List Char)
    (hwf : WellFormed g)
    (hnodup : (bpEndpoints (get_basepair_list g)).Nodup)
    (hij : (i, j) ∈ get_basepair_list g)
    (himp : get_importance_list g t m false = Except.ok imp)
    (hs : extract_structure_constraints g t m mu = Except.ok s) :
    (i ∈ imp ∧ j ∈ imp →
      lookupd (applyBasepairs imp (get_basepair_list g)
        (build_generic_nodes_dict g 'A')) i = some '(' ∧
      lookupd (applyBasepairs imp (get_basepair_list g)
        (build_generic_nodes_dict g 'A')) j = some ')' ∧
      s[i]? = some '(' ∧ s[j]? = some ')') ∧
    (¬ (i ∈ imp ∧ j ∈ imp) →
      lookupd (applyBasepairs imp (get_basepair_list g)
        (build_generic_nodes_dict g 'A')) i = some 'A' ∧
      lookupd (applyBasepairs imp (get_basepair_list g)
        (build_generic_nodes_dict g 'A')) j = some 'A') := by
  have hidsN : nodeIds g = List.range g.nodes.length := hwf.1
  have hedges : ∀ e ∈ g.edges, e.1 ∈ nodeIds g ∧ e.2.1 ∈ nodeIds g := hwf.2.2
  obtain ⟨hi, hj⟩ := basepair_endpoints_mem g hedges (i, j) hij
  have hiN : i < g.nodes.length := by
    rw [hidsN] at hi
    exact List.mem_range.mp hi
  have hjN : j < g.nodes.length := by
    rw [hidsN] at hj
    exact List.mem_range.mp hj
  have hB := applyBasepairs_bracket imp (get_basepair_list g)
    (build_generic_nodes_dict g 'A') i j hnodup hij
  obtain ⟨e, he, heb, he1, he2⟩ := mem_get_basepair_list_elim g i j hij
  have hipaired : i ∈ find_paired_nodes g :=
    (mem_find_paired_nodes g i).mpr ⟨e, he, heb, Or.inl he1.symm⟩
  have hjpaired : j ∈ find_paired_nodes g :=
    (mem_find_paired_nodes g j).mpr ⟨e, he, heb, Or.inr he2.symm⟩
  have hiunp : i ∉ find_unpaired_regions g mu :=
    fun hcon => (find_unpaired_subset g mu i hcon).2 hipaired
  have hjunp : j ∉ find_unpaired_regions g mu :=
    fun hcon => (find_unpaired_subset g mu j hcon).2 hjpaired
  obtain ⟨s2, L, hs2, hglF, hlen2, hget2⟩ :=
    extract_structure_constraints_spec g t m mu hwf
  rw [hs2] at hs
  rw [hglF] at himp
  obtain rfl : s2 = s := Except.ok.inj hs
  obtain rfl : L = imp := Except.ok.inj himp
  have hgA : lookupd (build_generic_nodes_dict g 'A') i = some 'A' ∧
      lookupd (build_generic_nodes_dict g 'A') j = some 'A' := by
    constructor
    · have hi2 : i ∈ List.map Prod.fst g.nodes := hi
      rw [build_generic_nodes_dict, lookupd_generic]
      exact if_pos hi2
    · have hj2 : j ∈ List.map Prod.fst g.nodes := hj
      rw [build_generic_nodes_dict, lookupd_generic]
      exact if_pos hj2
  constructor
  · intro hboth
    obtain ⟨hbi, hbj⟩ := hB.1 hboth
    refine ⟨hbi, hbj, ?_, ?_⟩
    · rw [hget2 i hiN, lookupd_applyMarks, if_neg hiunp, hbi]
    · rw [hget2 j hjN, lookupd_applyMarks, if_neg hjunp, hbj]
  · intro hnot
    obtain ⟨hbi, hbj⟩ := hB.2 hnot
    rw [hbi, hbj]
    exact hgA

/-- Witness for C2: in the 4-node hairpin with importances 1, 1, -3, 1
and threshold 0, the basepair (0, 3) has both endpoints important and
yields `'('` at 0 and `')'` at 3 (also in the final constraint
`(AA)`), while the basepair (1, 2) has endpoint 2 unimportant and both
its positions stay at the pad `'A'`. -/
theorem c2_basepair_bracket_marks_witness :
    (lookupd (applyBasepairs [0, 1, 3] (get_basepair_list hairpin4)
        (build_generic_nodes_dict hairpin4 'A')) 0 = some '(' ∧
      lookupd (applyBasepairs [0, 1, 3] (get_basepair_list hairpin4)
        (build_generic_nodes_dict hairpin4 'A')) 3 = some ')' ∧
      (['(', 'A', 'A', ')'] : List Char)[0]? = some '(' ∧
      (['(', 'A', 'A', ')'] : List Char)[3]? = some ')') ∧
    (lookupd (applyBasepairs [0, 1, 3] (get_basepair_list hairpin4)
        (build_generic_nodes_dict hairpin4 'A')) 1 = some 'A' ∧
      lookupd (applyBasepairs [0, 1, 3] (get_basepair_list hairpin4)
        (build_generic_nodes_dict hairpin4 'A')) 2 = some 'A') := by
  have h1 := (c2_basepair_bracket_marks hairpin4 0 1 1 0 3 [0, 1, 3]
    ['(', 'A', 'A', ')'] hairpin4_wf (by decide) (by decide) rfl rfl).1
    ⟨by decide, by decide⟩
  have h2 := (c2_basepair_bracket_marks hairpin4 0 1 1 1 2 [0, 1, 3]
    ['(', 'A', 'A', ')'] hairpin4_wf (by decide) (by decide) rfl rfl).2
    (by decide)
  exact ⟨h1, h2⟩

/-- C3: the unpaired-region pass of `_extract_structure_constraints`
runs after the basepair pass and overwrites it: whatever the dictionary
holds after the basepair pass — here an arbitrary dictionary carrying a
bracket mark at `p` — a position `p` lying in a qualifying unpaired
component ends as `'.'`, both in the pass output and in the final
structure constraint string. -/
theorem c3_unpaired_overwrites_basepair (g : AnnGraph) (t : ℚ) (m mu : Nat)
    (p : Nat) (d : List (Nat × Char)) (hwf : WellFormed g)
    (_hb : lookupd d p = some '(' ∨ lookupd d p = some ')')
    (hp : p ∈ find_unpaired_regions g mu) :
    lookupd (applyMarks '.' (find_unpaired_regions g mu) d) p = some '.' ∧
    ∀ s : List Char, extract_structure_constraints g t m mu = Except.ok s →
      s[p]? = some '.' := by
  constructor
  · rw [lookupd_applyMarks, if_pos hp]
  · intro s hs
    obtain ⟨s2, L, hs2, _, hlen2, hget2⟩ :=
      extract_structure_constraints_spec g t m mu hwf
    rw [hs2] at hs
    obtain rfl : s2 = s := Except.ok.inj hs
    have hpN : p < g.nodes.length := by
      have hmem := (find_unpaired_subset g mu p hp).1
      have hidsN : nodeIds g = List.range g.nodes.length := hwf.1
      rw [hidsN] at hmem
      exact List.mem_range.mp hmem
    rw [hget2 p hpN, lookupd_applyMarks, if_pos hp]

/-- Witness for C3: on the 5-node path every node is an unpaired
region; a dictionary holding `'('` at position 0 is overwritten to
`'.'` by the unpaired pass, and the final structure constraint
`.....` holds `'.'` at position 0. -/
theorem c3_unpaired_overwrites_basepair_witness :
    lookupd (applyMarks '.' (find_unpaired_regions path5 1) [(0, '(')]) 0 =
      some '.' ∧
    (['.', '.', '.', '.', '.'] : List Char)[0]? = some '.' := by
  have h := c3_unpaired_overwrites_basepair path5 0 1 1 0 [(0, '(')]
    path5_wf (Or.inl rfl) (by decide)
  exact ⟨h.1, h.2 ['.', '.', '.', '.', '.'] rfl⟩

lemma values_dictSet (P : Char → Prop) (d : List (Nat × Char)) (k : Nat) (v : Char)
    (hd : ∀ q ∈ d, P q.2) (hv : P v) : ∀ q ∈ dictSet d k v, P q.2 := by
  intro q hq
  simp only [dictSet] at hq
  by_cases h : d.any (fun r => r.1 == k)
  · rw [if_pos h] at hq
    obtain ⟨r, hr, hrq⟩ := List.mem_map.mp hq
    subst hrq
    by_cases hrk : (r.1 == k) = true
    · rw [if_pos hrk]
      exact hv
    · rw [if_neg hrk]
      exact hd r hr
  · rw [if_neg h] at hq
    rcases List.mem_append.mp hq with hq1 | hq2
    · exact hd q hq1
    · obtain rfl : q = (k, v) := by simpa using hq2
      exact hv

lemma values_applyMarks (P : Char → Prop) (c : Char) (l : List Nat)
    (d : List (Nat × Char)) (hd : ∀ q ∈ d, P q.2) (hc : P c) :
    ∀ q ∈ applyMarks c l d, P q.2 := by
  induction l generalizing d with
  | nil => exact hd
  | cons n rest ih =>
    rw [applyMarks_cons]
    exact ih (dictSet d n c) (values_dictSet P d n c hd hc)

lemma values_applyBasepairs (P : Char → Prop) (imp : List Nat)
    (bps : List (Nat × Nat)) (d : List (Nat × Char))
    (hd : ∀ q ∈ d, P q.2) (hopen : P '(') (hclose : P ')') :
    ∀ q ∈ applyBasepairs imp bps d, P q.2 := by
  induction bps generalizing d with
  | nil => exact hd
  | cons ij rest ih =>
    obtain ⟨i, j⟩ := ij
    simp only [applyBasepairs]
    by_cases hij : i ∈ imp ∧ j ∈ imp
    · rw [if_pos hij]
      exact ih _ (values_dictSet P _ j ')'
        (values_dictSet P d i '(' hd hopen) hclose)
    · rw [if_neg hij]
      exact ih d hd

lemma lookupd_mem_values (d : List (Nat × Char)) (p : Nat) (c : Char)
    (h : lookupd d p = some c) : ∃ q ∈ d, q.2 = c := by
  simp only [lookupd] at h
  cases hf : d.find? (fun q => q.1 == p) with
  | none =>
    rw [hf] at h
    exact absurd h (by simp)
  | some q =>
    rw [hf] at h
    exact ⟨q, List.mem_of_find?_eq_some hf, by simpa using h⟩

lemma getElem?_list_map {α β : Type} (f : α → β) (l : List α) (n : Nat) :
    (l.map f)[n]? = (l[n]?).map f := by
  induction l generalizing n with
  | nil => simp
  | cons a rest ih =>
    cases n with
    | zero => simp
    | succ k =>
      simp only [List.map_cons, List.getElem?_cons_succ]
      exact ih k

/-- C9: every character of the structure constraint is `'('`, `')'`,
`'.'` or the pad letter `'A'` — an unconstrained position is textually
the nucleotide adenine — and the fasta header built by `RNASynth._design`
renders position `p` of the structure constraint as `'-'` exactly when
it is the pad `'A'` (and a sequence-constraint wildcard `'N'` as
`'-'`). -/
theorem c9_structure_pad_is_adenine (g : AnnGraph) (t : ℚ) (m mu : Nat)
    (s : List Char) (p : Nat) (c : Char)
    (hs : extract_structure_constraints g t m mu = Except.ok s)
    (hc : s[p]? = some c) :
    (c = '(' ∨ c = ')' ∨ c = '.' ∨ c = 'A') ∧
    (headerStructField s)[p]? = some (if c = 'A' then '-' else c) ∧
    (∀ (q : List Char) (i : Nat) (b : Char), q[i]? = some b →
      (headerSeqField q)[i]? = some (if b = 'N' then '-' else b)) := by
  refine ⟨?_, ?_, ?_⟩
  · obtain ⟨imp, himp, hdts⟩ := except_bind_eq_ok _ _ _ hs
    have hcs : c ∈ s := List.getElem?_mem hc
    obtain ⟨i, hi, hlook⟩ := dictToStringGo_mem _ _ s hdts c hcs
    obtain ⟨q, hq, rfl⟩ := lookupd_mem_values _ i c hlook
    have hd0 : ∀ q2 ∈ build_generic_nodes_dict g 'A',
        (q2.2 = '(' ∨ q2.2 = ')' ∨ q2.2 = '.' ∨ q2.2 = 'A') := by
      intro q2 hq2
      obtain ⟨p2, hp2, hqe⟩ := List.mem_map.mp hq2
      subst hqe
      exact Or.inr (Or.inr (Or.inr rfl))
    exact values_applyMarks
      (fun x => x = '(' ∨ x = ')' ∨ x = '.' ∨ x = 'A') '.'
      (find_unpaired_regions g mu) _
      (values_applyBasepairs
        (fun x => x = '(' ∨ x = ')' ∨ x = '.' ∨ x = 'A')
        imp (get_basepair_list g) (build_generic_nodes_dict g 'A') hd0
        (Or.inl rfl) (Or.inr (Or.inl rfl)))
      (Or.inr (Or.inr (Or.inl rfl))) q hq
  · rw [headerStructField, getElem?_list_map, hc]
    rfl
  · intro q i b hqb
    rw [headerSeqField, getElem?_list_map, hqb]
    rfl

/-- Witness for C9: the hairpin structure constraint `(AA)` has the
bracket `'('` at position 0 (an allowed character, rendered as itself
in the header) and a pad `'A'` at position 1 (rendered as `'-'`); a
wildcard `'N'` of a sequence constraint is rendered as `'-'`. -/
theorem c9_structure_pad_is_adenine_witness :
    ('(' = '(' ∨ '(' = ')' ∨ '(' = '.' ∨ '(' = 'A') ∧
    (headerStructField ['(', 'A', 'A', ')'])[0]? =
      some (if '(' = 'A' then '-' else '(') ∧
    ('A' = '(' ∨ 'A' = ')' ∨ 'A' = '.' ∨ 'A' = 'A') ∧
    (headerStructField ['(', 'A', 'A', ')'])[1]? =
      some (if 'A' = 'A' then '-' else 'A') ∧
    (headerSeqField ['G', 'N', 'N', 'C'])[1]? =
      some (if 'N' = 'N' then '-' else 'N') := by
  have h0 := c9_structure_pad_is_adenine hairpin4 0 1 1 ['(', 'A', 'A', ')']
    0 '(' rfl rfl
  have h1 := c9_structure_pad_is_adenine hairpin4 0 1 1 ['(', 'A', 'A', ')']
    1 'A' rfl rfl
  exact ⟨h0.1, h0.2.1, h1.1, h1.2.1, h0.2.2 ['G', 'N', 'N', 'C'] 1 'N' rfl⟩

lemma extract_constraints_mem_err (P : ExtractorParams) (gs : List AnnGraph)
    (g : AnnGraph) (e : ExtractError) (hg : g ∈ gs)
    (he : extract_constraints_one P g = Except.error e) :
    ∃ err, extract_constraints P gs = Except.error err := by
  induction gs with
  | nil => simp at hg
  | cons g0 rest ih =>
    rcases List.mem_cons.mp hg with rfl | hg2
    · exact ⟨e, by simp [extract_constraints, he, Except.bind]⟩
    · cases h0 : extract_constraints_one P g0 with
      | error e0 => exact ⟨e0, by simp [extract_constraints, h0, Except.bind]⟩
      | ok r =>
        obtain ⟨err, herr⟩ := ih hg2
        exact ⟨err, by
          simp [extract_constraints, h0, herr, Except.bind, Except.map]⟩

/-- C8: a malformed graph — a node missing its label or importance
attribute, or (for a duplicate-free node list) node ids that are not
0-based contiguous — makes `extract_constraints` fail that item with
`GraphMalformedError`, and any stream containing such an item aborts
with an error instead of silently skipping it. -/
theorem c8_malformed_graph_fails (P : ExtractorParams) (g : AnnGraph)
    (h : (∃ p ∈ g.nodes, p.2.label = none ∨ p.2.importance = none) ∨
      ((∀ p ∈ g.nodes, (p.2.label).isSome ∧ (p.2.importance).isSome) ∧
       (g.nodes.map Prod.fst).Nodup ∧
       ∃ i, i < g.nodes.length ∧ i ∉ nodeIds g)) :
    extract_constraints_one P g = Except.error ExtractError.graphMalformed ∧
    ∀ gs, g ∈ gs → ∃ err, extract_constraints P gs = Except.error err := by
  have hmain : extract_constraints_one P g =
      Except.error ExtractError.graphMalformed := by
    rcases h with ⟨p, hp, hmiss⟩ | ⟨hattr, hnodup, i0, hi0, hi0mem⟩
    · by_cases hlab : ∀ q ∈ g.nodes, (q.2.label).isSome
      · have himpnone : p.2.importance = none := by
          rcases hmiss with hl | hi
          · exact absurd (hlab p hp) (by simp [hl])
          · exact hi
        have hne : g.nodes.length ≠ 0 :=
          Nat.pos_iff_ne_zero.mp (List.length_pos_of_mem hp)
        have hgc := gcCountAux_ok g.nodes hlab
        have hsur := survivorsAux_err g.nodes
          P.importance_threshold_sequence_constraint ⟨p, hp, himpnone⟩
        obtain ⟨d, hd, _, _⟩ := build_nodes_dict_ok g.nodes hlab
        simp [extract_constraints_one, compute_gc_content, hgc, hne,
          extract_sequence_constraints, hd, get_importance_list, hsur,
          Except.bind, Except.map]
      · push_neg at hlab
        obtain ⟨q, hq, hqlab⟩ := hlab
        have hqnone : q.2.label = none := Option.not_isSome_iff_eq_none.mp hqlab
        have hgc := gcCountAux_err g.nodes ⟨q, hq, hqnone⟩
        simp [extract_constraints_one, compute_gc_content, hgc, Except.bind]
    · have hlab : ∀ q ∈ g.nodes, (q.2.label).isSome := fun q hq => (hattr q hq).1
      have himps : ∀ q ∈ g.nodes, (q.2.importance).isSome :=
        fun q hq => (hattr q hq).2
      have hne : g.nodes.length ≠ 0 :=
        Nat.pos_iff_ne_zero.mp (Nat.lt_of_le_of_lt (Nat.zero_le i0) hi0)
      have hgc := gcCountAux_ok g.nodes hlab
      obtain ⟨d, hd, hkeys, _⟩ := build_nodes_dict_ok g.nodes hlab
      have hglT := (get_importance_list_eq g
        P.importance_threshold_sequence_constraint
        P.min_size_connected_component_sequence_constraint himps).2
      set inv := (nodeIds g).filter (fun n =>
        decide (n ∉ keptUnion P.min_size_connected_component_sequence_constraint
          (connectedComponents ((g.nodes.filter (fun p =>
            !decide (p.2.importance.getD 0 <
              P.importance_threshold_sequence_constraint))).map Prod.fst)
            g.edges))) with hinvdef
      have hinvsub : ∀ n ∈ inv, n ∈ d.map Prod.fst := by
        intro n hn
        rw [hkeys]
        exact (List.mem_filter.mp hn).1
      have hkeys2 : (applyMarks 'N' inv d).map Prod.fst = nodeIds g := by
        rw [keys_applyMarks 'N' inv d hinvsub]
        exact hkeys
      have hlen2 : (applyMarks 'N' inv d).length = g.nodes.length := by
        have hcg := congrArg List.length hkeys2
        simpa [nodeIds] using hcg
      have hnone : lookupd (applyMarks 'N' inv d) i0 = none := by
        apply Option.not_isSome_iff_eq_none.mp
        rw [lookupd_isSome_iff, hkeys2]
        exact hi0mem
      have hdts : dict_to_string (applyMarks 'N' inv d) =
          Except.error ExtractError.graphMalformed :=
        dictToStringGo_err _ _
          ⟨i0, List.mem_range.mpr (by rw [hlen2]; exact hi0), hnone⟩
      simp [extract_constraints_one, compute_gc_content, hgc, hne,
        extract_sequence_constraints, hd, hglT, hdts, Except.bind, Except.map]
  exact ⟨hmain, fun gs hg =>
    extract_constraints_mem_err P gs g ExtractError.graphMalformed hg hmain⟩

/-- Witness for C8: the one-node graph whose node carries id 1 (ids not
0-based contiguous) fails extraction with `GraphMalformedError`. -/
theorem c8_malformed_graph_fails_witness :
    extract_constraints_one defaultParams gBad =
      Except.error ExtractError.graphMalformed ∧
    extract_constraints defaultParams [gBad] =
      Except.error ExtractError.graphMalformed := by
  have h := c8_malformed_graph_fails defaultParams gBad
    (Or.inr ⟨by decide, by decide, 0, by decide, by decide⟩)
  exact ⟨h.1, by rfl⟩

end RNAsynth
